import Mathlib

/-!
Verification development for the sandboxed Python-in-WASM execution engine
(`app/services/executor.py`).  The Python source is shallowly embedded:
byte strings become `List Nat` (each entry a byte value), text strings become
`List Char`, the ambient process environment becomes an explicit `Config`
record, and filesystem facts become explicit function-valued models.
-/

set_option maxHeartbeats 1000000

namespace CodeInterpreter

/-! ## Output sanitizer (`_truncate`)

`bytes.decode("utf-8", errors="replace")` is modelled by `decodeReplace`,
following CPython's decoder: each maximal subpart of an ill-formed UTF-8
sequence is replaced by a single U+FFFD replacement character.
-/

/-- Code point of the replacement character U+FFFD. -/
def repChar : Nat := 0xFFFD

/-- Whether a byte is a UTF-8 continuation byte (0x80..0xBF). -/
def isCont (b : Nat) : Bool := decide (0x80 ≤ b) && decide (b ≤ 0xBF)

/-- Admissible first continuation byte after a three-byte lead `b0`
(excluding overlong forms and surrogates, as CPython does). -/
def cont3ok (b0 b1 : Nat) : Bool :=
  if b0 = 0xE0 then decide (0xA0 ≤ b1) && decide (b1 ≤ 0xBF)
  else if b0 = 0xED then decide (0x80 ≤ b1) && decide (b1 ≤ 0x9F)
  else isCont b1

/-- Admissible first continuation byte after a four-byte lead `b0`. -/
def cont4ok (b0 b1 : Nat) : Bool :=
  if b0 = 0xF0 then decide (0x90 ≤ b1) && decide (b1 ≤ 0xBF)
  else if b0 = 0xF4 then decide (0x80 ≤ b1) && decide (b1 ≤ 0x8F)
  else isCont b1

/-- Code point assembled from a two-byte UTF-8 sequence. -/
def cp2 (b0 b1 : Nat) : Nat := (b0 - 0xC0) * 0x40 + (b1 - 0x80)

/-- Code point assembled from a three-byte UTF-8 sequence. -/
def cp3 (b0 b1 b2 : Nat) : Nat :=
  (b0 - 0xE0) * 0x1000 + (b1 - 0x80) * 0x40 + (b2 - 0x80)

/-- Code point assembled from a four-byte UTF-8 sequence. -/
def cp4 (b0 b1 b2 b3 : Nat) : Nat :=
  (b0 - 0xF0) * 0x40000 + (b1 - 0x80) * 0x1000 + (b2 - 0x80) * 0x40 + (b3 - 0x80)

/-- CPython's `bytes.decode("utf-8", errors="replace")`: decode a byte list
to a list of code points, replacing each maximal ill-formed subpart with
U+FFFD. -/
def decodeReplace : List Nat → List Nat
  | [] => []
  | b0 :: t =>
    if b0 < 0x80 then b0 :: decodeReplace t
    else if b0 < 0xC2 then repChar :: decodeReplace t
    else if b0 < 0xE0 then
      match t with
      | [] => [repChar]
      | b1 :: t1 =>
        if isCont b1 then cp2 b0 b1 :: decodeReplace t1
        else repChar :: decodeReplace (b1 :: t1)
    else if b0 < 0xF0 then
      match t with
      | [] => [repChar]
      | b1 :: t1 =>
        if cont3ok b0 b1 then
          match t1 with
          | [] => [repChar]
          | b2 :: t2 =>
            if isCont b2 then cp3 b0 b1 b2 :: decodeReplace t2
            else repChar :: decodeReplace (b2 :: t2)
        else repChar :: decodeReplace (b1 :: t1)
    else if b0 < 0xF5 then
      match t with
      | [] => [repChar]
      | b1 :: t1 =>
        if cont4ok b0 b1 then
          match t1 with
          | [] => [repChar]
          | b2 :: t2 =>
            if isCont b2 then
              match t2 with
              | [] => [repChar]
              | b3 :: t3 =>
                if isCont b3 then cp4 b0 b1 b2 b3 :: decodeReplace t3
                else repChar :: decodeReplace (b3 :: t3)
            else repChar :: decodeReplace (b2 :: t2)
        else repChar :: decodeReplace (b1 :: t1)
    else repChar :: decodeReplace t

/-- Number of bytes of the UTF-8 encoding of one code point. -/
def utf8LenAt (cp : Nat) : Nat :=
  if cp < 0x80 then 1 else if cp < 0x800 then 2 else if cp < 0x10000 then 3 else 4

/-- Number of bytes of the UTF-8 encoding of a code-point list. -/
def utf8Len (cps : List Nat) : Nat := (cps.map utf8LenAt).sum

/-- The bytes of the truncation suffix `b"\n...[truncated]"` (15 bytes). -/
def markerBytes : List Nat :=
  [10, 46, 46, 46, 91, 116, 114, 117, 110, 99, 97, 116, 101, 100, 93]

/-- `_truncate` from `executor.py`: within the cap, decode fully with
replacement; over the cap, keep the first `max(0, max_bytes - 32)` bytes,
append the truncation suffix, and decode the result. -/
def _truncate (s : List Nat) (maxBytes : Nat) : List Nat :=
  if s.length ≤ maxBytes then decodeReplace s
  else
    decodeReplace (s.take (Int.toNat (max 0 ((maxBytes : Int) - 32))) ++ markerBytes)

example : decodeReplace [0xFF] = [repChar] := by decide
example : decodeReplace [0xE4, 0xB8] = [repChar] := by decide
example : decodeReplace [0xED, 0xA0, 0x80] = [repChar, repChar, repChar] := by decide
example : decodeReplace [0xF0, 0x9F, 0x98, 0x80] = [0x1F600] := by decide
example : decodeReplace markerBytes = markerBytes := by decide
example : _truncate [97] 0 = markerBytes := by decide

/-! ### One-step unfolding lemmas for `decodeReplace` -/

theorem dr_ascii (b0 : Nat) (t : List Nat) (h : b0 < 0x80) :
    decodeReplace (b0 :: t) = b0 :: decodeReplace t := by
  conv_lhs => rw [decodeReplace.eq_def]
  simp only [if_pos h]

theorem dr_badstart (b0 : Nat) (t : List Nat) (h1 : 0x80 ≤ b0) (h2 : b0 < 0xC2) :
    decodeReplace (b0 :: t) = repChar :: decodeReplace t := by
  conv_lhs => rw [decodeReplace.eq_def]
  simp only [if_neg (by omega : ¬ b0 < 0x80), if_pos h2]

theorem dr_f5 (b0 : Nat) (t : List Nat) (h : 0xF5 ≤ b0) :
    decodeReplace (b0 :: t) = repChar :: decodeReplace t := by
  conv_lhs => rw [decodeReplace.eq_def]
  simp only [if_neg (by omega : ¬ b0 < 0x80), if_neg (by omega : ¬ b0 < 0xC2),
    if_neg (by omega : ¬ b0 < 0xE0), if_neg (by omega : ¬ b0 < 0xF0),
    if_neg (by omega : ¬ b0 < 0xF5)]

theorem dr_2_nil (b0 : Nat) (h1 : 0xC2 ≤ b0) (h2 : b0 < 0xE0) :
    decodeReplace [b0] = [repChar] := by
  conv_lhs => rw [decodeReplace.eq_def]
  simp only [if_neg (by omega : ¬ b0 < 0x80), if_neg (by omega : ¬ b0 < 0xC2), if_pos h2]

theorem dr_2_cont (b0 b1 : Nat) (t1 : List Nat) (h1 : 0xC2 ≤ b0) (h2 : b0 < 0xE0)
    (hc : isCont b1 = true) :
    decodeReplace (b0 :: b1 :: t1) = cp2 b0 b1 :: decodeReplace t1 := by
  conv_lhs => rw [decodeReplace.eq_def]
  simp only [if_neg (by omega : ¬ b0 < 0x80), if_neg (by omega : ¬ b0 < 0xC2), if_pos h2, hc,
    if_pos]

theorem dr_2_bad (b0 b1 : Nat) (t1 : List Nat) (h1 : 0xC2 ≤ b0) (h2 : b0 < 0xE0)
    (hc : isCont b1 = false) :
    decodeReplace (b0 :: b1 :: t1) = repChar :: decodeReplace (b1 :: t1) := by
  conv_lhs => rw [decodeReplace.eq_def]
  simp only [if_neg (by omega : ¬ b0 < 0x80), if_neg (by omega : ¬ b0 < 0xC2), if_pos h2, hc,
    Bool.false_eq_true, if_false]

theorem dr_3_nil (b0 : Nat) (h1 : 0xE0 ≤ b0) (h2 : b0 < 0xF0) :
    decodeReplace [b0] = [repChar] := by
  conv_lhs => rw [decodeReplace.eq_def]
  simp only [if_neg (by omega : ¬ b0 < 0x80), if_neg (by omega : ¬ b0 < 0xC2),
    if_neg (by omega : ¬ b0 < 0xE0), if_pos h2]

theorem dr_3_bad1 (b0 b1 : Nat) (t1 : List Nat) (h1 : 0xE0 ≤ b0) (h2 : b0 < 0xF0)
    (hc : cont3ok b0 b1 = false) :
    decodeReplace (b0 :: b1 :: t1) = repChar :: decodeReplace (b1 :: t1) := by
  conv_lhs => rw [decodeReplace.eq_def]
  simp only [if_neg (by omega : ¬ b0 < 0x80), if_neg (by omega : ¬ b0 < 0xC2),
    if_neg (by omega : ¬ b0 < 0xE0), if_pos h2, hc, Bool.false_eq_true, if_false]

theorem dr_3_nil2 (b0 b1 : Nat) (h1 : 0xE0 ≤ b0) (h2 : b0 < 0xF0)
    (hc : cont3ok b0 b1 = true) :
    decodeReplace [b0, b1] = [repChar] := by
  conv_lhs => rw [decodeReplace.eq_def]
  simp only [if_neg (by omega : ¬ b0 < 0x80), if_neg (by omega : ¬ b0 < 0xC2),
    if_neg (by omega : ¬ b0 < 0xE0), if_pos h2, hc, if_pos]

theorem dr_3_cont (b0 b1 b2 : Nat) (t2 : List Nat) (h1 : 0xE0 ≤ b0) (h2 : b0 < 0xF0)
    (hc1 : cont3ok b0 b1 = true) (hc2 : isCont b2 = true) :
    decodeReplace (b0 :: b1 :: b2 :: t2) = cp3 b0 b1 b2 :: decodeReplace t2 := by
  conv_lhs => rw [decodeReplace.eq_def]
  simp only [if_neg (by omega : ¬ b0 < 0x80), if_neg (by omega : ¬ b0 < 0xC2),
    if_neg (by omega : ¬ b0 < 0xE0), if_pos h2, hc1, hc2, if_pos]

theorem dr_3_bad2 (b0 b1 b2 : Nat) (t2 : List Nat) (h1 : 0xE0 ≤ b0) (h2 : b0 < 0xF0)
    (hc1 : cont3ok b0 b1 = true) (hc2 : isCont b2 = false) :
    decodeReplace (b0 :: b1 :: b2 :: t2) = repChar :: decodeReplace (b2 :: t2) := by
  conv_lhs => rw [decodeReplace.eq_def]
  simp only [if_neg (by omega : ¬ b0 < 0x80), if_neg (by omega : ¬ b0 < 0xC2),
    if_neg (by omega : ¬ b0 < 0xE0), if_pos h2, hc1, hc2, Bool.false_eq_true, if_false,
    if_pos]

theorem dr_4_nil (b0 : Nat) (h1 : 0xF0 ≤ b0) (h2 : b0 < 0xF5) :
    decodeReplace [b0] = [repChar] := by
  conv_lhs => rw [decodeReplace.eq_def]
  simp only [if_neg (by omega : ¬ b0 < 0x80), if_neg (by omega : ¬ b0 < 0xC2),
    if_neg (by omega : ¬ b0 < 0xE0), if_neg (by omega : ¬ b0 < 0xF0), if_pos h2]

theorem dr_4_bad1 (b0 b1 : Nat) (t1 : List Nat) (h1 : 0xF0 ≤ b0) (h2 : b0 < 0xF5)
    (hc : cont4ok b0 b1 = false) :
    decodeReplace (b0 :: b1 :: t1) = repChar :: decodeReplace (b1 :: t1) := by
  conv_lhs => rw [decodeReplace.eq_def]
  simp only [if_neg (by omega : ¬ b0 < 0x80), if_neg (by omega : ¬ b0 < 0xC2),
    if_neg (by omega : ¬ b0 < 0xE0), if_neg (by omega : ¬ b0 < 0xF0), if_pos h2, hc,
    Bool.false_eq_true, if_false]

theorem dr_4_nil2 (b0 b1 : Nat) (h1 : 0xF0 ≤ b0) (h2 : b0 < 0xF5)
    (hc : cont4ok b0 b1 = true) :
    decodeReplace [b0, b1] = [repChar] := by
  conv_lhs => rw [decodeReplace.eq_def]
  simp only [if_neg (by omega : ¬ b0 < 0x80), if_neg (by omega : ¬ b0 < 0xC2),
    if_neg (by omega : ¬ b0 < 0xE0), if_neg (by omega : ¬ b0 < 0xF0), if_pos h2, hc, if_pos]

theorem dr_4_bad2 (b0 b1 b2 : Nat) (t2 : List Nat) (h1 : 0xF0 ≤ b0) (h2 : b0 < 0xF5)
    (hc1 : cont4ok b0 b1 = true) (hc2 : isCont b2 = false) :
    decodeReplace (b0 :: b1 :: b2 :: t2) = repChar :: decodeReplace (b2 :: t2) := by
  conv_lhs => rw [decodeReplace.eq_def]
  simp only [if_neg (by omega : ¬ b0 < 0x80), if_neg (by omega : ¬ b0 < 0xC2),
    if_neg (by omega : ¬ b0 < 0xE0), if_neg (by omega : ¬ b0 < 0xF0), if_pos h2, hc1, hc2,
    Bool.false_eq_true, if_false, if_pos]

theorem dr_4_nil3 (b0 b1 b2 : Nat) (h1 : 0xF0 ≤ b0) (h2 : b0 < 0xF5)
    (hc1 : cont4ok b0 b1 = true) (hc2 : isCont b2 = true) :
    decodeReplace [b0, b1, b2] = [repChar] := by
  conv_lhs => rw [decodeReplace.eq_def]
  simp only [if_neg (by omega : ¬ b0 < 0x80), if_neg (by omega : ¬ b0 < 0xC2),
    if_neg (by omega : ¬ b0 < 0xE0), if_neg (by omega : ¬ b0 < 0xF0), if_pos h2, hc1, hc2,
    if_pos]

theorem dr_4_cont (b0 b1 b2 b3 : Nat) (t3 : List Nat) (h1 : 0xF0 ≤ b0) (h2 : b0 < 0xF5)
    (hc1 : cont4ok b0 b1 = true) (hc2 : isCont b2 = true) (hc3 : isCont b3 = true) :
    decodeReplace (b0 :: b1 :: b2 :: b3 :: t3) = cp4 b0 b1 b2 b3 :: decodeReplace t3 := by
  conv_lhs => rw [decodeReplace.eq_def]
  simp only [if_neg (by omega : ¬ b0 < 0x80), if_neg (by omega : ¬ b0 < 0xC2),
    if_neg (by omega : ¬ b0 < 0xE0), if_neg (by omega : ¬ b0 < 0xF0), if_pos h2, hc1, hc2,
    hc3, if_pos]

theorem dr_4_bad3 (b0 b1 b2 b3 : Nat) (t3 : List Nat) (h1 : 0xF0 ≤ b0) (h2 : b0 < 0xF5)
    (hc1 : cont4ok b0 b1 = true) (hc2 : isCont b2 = true) (hc3 : isCont b3 = false) :
    decodeReplace (b0 :: b1 :: b2 :: b3 :: t3) = repChar :: decodeReplace (b3 :: t3) := by
  conv_lhs => rw [decodeReplace.eq_def]
  simp only [if_neg (by omega : ¬ b0 < 0x80), if_neg (by omega : ¬ b0 < 0xC2),
    if_neg (by omega : ¬ b0 < 0xE0), if_neg (by omega : ¬ b0 < 0xF0), if_pos h2, hc1, hc2,
    hc3, Bool.false_eq_true, if_false, if_pos]

/-! ### Structural facts about `decodeReplace` -/

theorem isCont_of_lt80 (b : Nat) (h : b < 0x80) : isCont b = false := by
  simp only [isCont, Bool.and_eq_false_iff, decide_eq_false_iff_not]
  omega

theorem cont3ok_of_lt80 (b0 b1 : Nat) (h : b1 < 0x80) : cont3ok b0 b1 = false := by
  unfold cont3ok
  split_ifs <;>
    simp only [isCont, Bool.and_eq_false_iff, decide_eq_false_iff_not] <;> omega

theorem cont4ok_of_lt80 (b0 b1 : Nat) (h : b1 < 0x80) : cont4ok b0 b1 = false := by
  unfold cont4ok
  split_ifs <;>
    simp only [isCont, Bool.and_eq_false_iff, decide_eq_false_iff_not] <;> omega

/-- Each decoded character consumes at least one input byte, so decoding never
produces more characters than there were bytes. -/
theorem decodeReplace_length_le_aux :
    ∀ (n : Nat) (l : List Nat), l.length ≤ n → (decodeReplace l).length ≤ l.length := by
  intro n
  induction n with
  | zero =>
    intro l hl
    have : l = [] := List.eq_nil_of_length_eq_zero (Nat.le_zero.mp hl)
    subst this
    simp [decodeReplace]
  | succ n ih =>
    intro l hl
    rcases l with _ | ⟨b0, t⟩
    · simp [decodeReplace]
    · simp only [List.length_cons] at hl
      have ht : t.length ≤ n := by omega
      by_cases hA : b0 < 0x80
      · rw [dr_ascii _ _ hA]
        have := ih t ht
        simp only [List.length_cons]
        omega
      · by_cases hB : b0 < 0xC2
        · rw [dr_badstart _ _ (by omega) hB]
          have := ih t ht
          simp only [List.length_cons]
          omega
        · by_cases hC : b0 < 0xE0
          · rcases t with _ | ⟨b1, t1⟩
            · rw [dr_2_nil _ (by omega) hC]; simp
            · simp only [List.length_cons] at ht ⊢
              cases hc : isCont b1
              · rw [dr_2_bad _ _ _ (by omega) hC hc]
                have := ih (b1 :: t1) (by simpa using ht)
                simp only [List.length_cons] at this ⊢
                omega
              · rw [dr_2_cont _ _ _ (by omega) hC hc]
                have := ih t1 (by omega)
                simp only [List.length_cons]
                omega
          · by_cases hD : b0 < 0xF0
            · rcases t with _ | ⟨b1, t1⟩
              · rw [dr_3_nil _ (by omega) hD]; simp
              · simp only [List.length_cons] at ht
                cases hc1 : cont3ok b0 b1
                · rw [dr_3_bad1 _ _ _ (by omega) hD hc1]
                  have := ih (b1 :: t1) (by simpa using ht)
                  simp only [List.length_cons] at this ⊢
                  omega
                · rcases t1 with _ | ⟨b2, t2⟩
                  · rw [dr_3_nil2 _ _ (by omega) hD hc1]; simp
                  · simp only [List.length_cons] at ht
                    cases hc2 : isCont b2
                    · rw [dr_3_bad2 _ _ _ _ (by omega) hD hc1 hc2]
                      have := ih (b2 :: t2) (by simp; omega)
                      simp only [List.length_cons] at this ⊢
                      omega
                    · rw [dr_3_cont _ _ _ _ (by omega) hD hc1 hc2]
                      have := ih t2 (by omega)
                      simp only [List.length_cons]
                      omega
            · by_cases hE : b0 < 0xF5
              · rcases t with _ | ⟨b1, t1⟩
                · rw [dr_4_nil _ (by omega) hE]; simp
                · simp only [List.length_cons] at ht
                  cases hc1 : cont4ok b0 b1
                  · rw [dr_4_bad1 _ _ _ (by omega) hE hc1]
                    have := ih (b1 :: t1) (by simpa using ht)
                    simp only [List.length_cons] at this ⊢
                    omega
                  · rcases t1 with _ | ⟨b2, t2⟩
                    · rw [dr_4_nil2 _ _ (by omega) hE hc1]; simp
                    · simp only [List.length_cons] at ht
                      cases hc2 : isCont b2
                      · rw [dr_4_bad2 _ _ _ _ (by omega) hE hc1 hc2]
                        have := ih (b2 :: t2) (by simp; omega)
                        simp only [List.length_cons] at this ⊢
                        omega
                      · rcases t2 with _ | ⟨b3, t3⟩
                        · rw [dr_4_nil3 _ _ _ (by omega) hE hc1 hc2]; simp
                        · simp only [List.length_cons] at ht
                          cases hc3 : isCont b3
                          · rw [dr_4_bad3 _ _ _ _ _ (by omega) hE hc1 hc2 hc3]
                            have := ih (b3 :: t3) (by simp; omega)
                            simp only [List.length_cons] at this ⊢
                            omega
                          · rw [dr_4_cont _ _ _ _ _ (by omega) hE hc1 hc2 hc3]
                            have := ih t3 (by omega)
                            simp only [List.length_cons]
                            omega
              · rw [dr_f5 _ _ (by omega)]
                have := ih t ht
                simp only [List.length_cons]
                omega

theorem decodeReplace_length_le (l : List Nat) :
    (decodeReplace l).length ≤ l.length :=
  decodeReplace_length_le_aux l.length l le_rfl

/-- The truncation suffix without its leading newline byte. -/
def markerTail : List Nat :=
  [46, 46, 46, 91, 116, 114, 117, 110, 99, 97, 116, 101, 100, 93]

theorem marker_eq_cons : markerBytes = 10 :: markerTail := rfl

theorem decode_marker : decodeReplace markerBytes = markerBytes := by decide

/-- The truncation suffix is pure ASCII, so no ill-formed sequence at the end
of the head can swallow any of its bytes: the decoded output of
`head ++ marker` always ends with the marker's characters. -/
theorem marker_suffix_decode_aux :
    ∀ (n : Nat) (h : List Nat), h.length ≤ n →
      markerBytes <:+ decodeReplace (h ++ markerBytes) := by
  intro n
  induction n with
  | zero =>
    intro h hl
    have : h = [] := List.eq_nil_of_length_eq_zero (Nat.le_zero.mp hl)
    subst this
    rw [List.nil_append, decode_marker]
  | succ n ih =>
    intro h hl
    rcases h with _ | ⟨b0, t⟩
    · rw [List.nil_append, decode_marker]
    · simp only [List.length_cons] at hl
      have ht : t.length ≤ n := by omega
      rw [List.cons_append]
      by_cases hA : b0 < 0x80
      · rw [dr_ascii _ _ hA]
        exact (ih t ht).trans (List.suffix_cons _ _)
      · by_cases hB : b0 < 0xC2
        · rw [dr_badstart _ _ (by omega) hB]
          exact (ih t ht).trans (List.suffix_cons _ _)
        · by_cases hC : b0 < 0xE0
          · rcases t with _ | ⟨b1, t1⟩
            · rw [List.nil_append, marker_eq_cons,
                dr_2_bad _ _ _ (by omega) hC (isCont_of_lt80 10 (by omega)),
                ← marker_eq_cons, decode_marker]
              exact List.suffix_cons _ _
            · rw [List.cons_append]
              cases hc : isCont b1
              · rw [dr_2_bad _ _ _ (by omega) hC hc, ← List.cons_append]
                exact (ih (b1 :: t1) (by simpa using hl)).trans (List.suffix_cons _ _)
              · rw [dr_2_cont _ _ _ (by omega) hC hc]
                have ht1 : t1.length ≤ n := by simp at hl; omega
                exact (ih t1 ht1).trans (List.suffix_cons _ _)
          · by_cases hD : b0 < 0xF0
            · rcases t with _ | ⟨b1, t1⟩
              · rw [List.nil_append, marker_eq_cons,
                  dr_3_bad1 _ _ _ (by omega) hD (cont3ok_of_lt80 b0 10 (by omega)),
                  ← marker_eq_cons, decode_marker]
                exact List.suffix_cons _ _
              · rw [List.cons_append]
                cases hc1 : cont3ok b0 b1
                · rw [dr_3_bad1 _ _ _ (by omega) hD hc1, ← List.cons_append]
                  exact (ih (b1 :: t1) (by simpa using hl)).trans (List.suffix_cons _ _)
                · rcases t1 with _ | ⟨b2, t2⟩
                  · rw [List.nil_append, marker_eq_cons,
                      dr_3_bad2 _ _ _ _ (by omega) hD hc1 (isCont_of_lt80 10 (by omega)),
                      ← marker_eq_cons, decode_marker]
                    exact List.suffix_cons _ _
                  · rw [List.cons_append]
                    cases hc2 : isCont b2
                    · rw [dr_3_bad2 _ _ _ _ (by omega) hD hc1 hc2, ← List.cons_append]
                      have : (b2 :: t2).length ≤ n := by simp at hl ⊢; omega
                      exact (ih (b2 :: t2) this).trans (List.suffix_cons _ _)
                    · rw [dr_3_cont _ _ _ _ (by omega) hD hc1 hc2]
                      have ht2 : t2.length ≤ n := by simp at hl; omega
                      exact (ih t2 ht2).trans (List.suffix_cons _ _)
            · by_cases hE : b0 < 0xF5
              · rcases t with _ | ⟨b1, t1⟩
                · rw [List.nil_append, marker_eq_cons,
                    dr_4_bad1 _ _ _ (by omega) hE (cont4ok_of_lt80 b0 10 (by omega)),
                    ← marker_eq_cons, decode_marker]
                  exact List.suffix_cons _ _
                · rw [List.cons_append]
                  cases hc1 : cont4ok b0 b1
                  · rw [dr_4_bad1 _ _ _ (by omega) hE hc1, ← List.cons_append]
                    exact (ih (b1 :: t1) (by simpa using hl)).trans (List.suffix_cons _ _)
                  · rcases t1 with _ | ⟨b2, t2⟩
                    · rw [List.nil_append, marker_eq_cons,
                        dr_4_bad2 _ _ _ _ (by omega) hE hc1 (isCont_of_lt80 10 (by omega)),
                        ← marker_eq_cons, decode_marker]
                      exact List.suffix_cons _ _
                    · rw [List.cons_append]
                      cases hc2 : isCont b2
                      · rw [dr_4_bad2 _ _ _ _ (by omega) hE hc1 hc2, ← List.cons_append]
                        have : (b2 :: t2).length ≤ n := by simp at hl ⊢; omega
                        exact (ih (b2 :: t2) this).trans (List.suffix_cons _ _)
                      · rcases t2 with _ | ⟨b3, t3⟩
                        · rw [List.nil_append, marker_eq_cons,
                            dr_4_bad3 _ _ _ _ _ (by omega) hE hc1 hc2
                              (isCont_of_lt80 10 (by omega)),
                            ← marker_eq_cons, decode_marker]
                          exact List.suffix_cons _ _
                        · rw [List.cons_append]
                          cases hc3 : isCont b3
                          · rw [dr_4_bad3 _ _ _ _ _ (by omega) hE hc1 hc2 hc3,
                              ← List.cons_append]
                            have : (b3 :: t3).length ≤ n := by simp at hl ⊢; omega
                            exact (ih (b3 :: t3) this).trans (List.suffix_cons _ _)
                          · rw [dr_4_cont _ _ _ _ _ (by omega) hE hc1 hc2 hc3]
                            have ht3 : t3.length ≤ n := by simp at hl; omega
                            exact (ih t3 ht3).trans (List.suffix_cons _ _)
              · rw [dr_f5 _ _ (by omega)]
                exact (ih t ht).trans (List.suffix_cons _ _)

theorem marker_suffix_decode (h : List Nat) :
    markerBytes <:+ decodeReplace (h ++ markerBytes) :=
  marker_suffix_decode_aux h.length h le_rfl

theorem markerBytes_length : markerBytes.length = 15 := rfl

/-- Reference definition of the sanitizer exactly as claim C2 words it:
over the cap, keep the first `cap - (length of the truncation marker)`
bytes, append the marker, decode with the same replacement policy. -/
def truncateSpecClaim (s : List Nat) (cap : Nat) : List Nat :=
  if s.length ≤ cap then decodeReplace s
  else decodeReplace (s.take (cap - markerBytes.length) ++ markerBytes)

/-- Reference definition of the sanitizer as amended: over the cap, keep the
first `max 0 (cap - 32)` bytes (the code reserves a fixed 32-byte headroom,
larger than the 15-byte marker), append the marker in its entirety, decode
with the same replacement policy. -/
def truncateSpecAmended (s : List Nat) (cap : Nat) : List Nat :=
  if s.length ≤ cap then decodeReplace s
  else decodeReplace (s.take (cap - 32) ++ markerBytes)

/-- Claim C1, counterexample to the claim as stated: a 15-byte stream of
`0xFF` bytes is within a 15-byte cap, but every byte decodes to U+FFFD
(3 UTF-8 bytes each), so the sanitized output is 45 UTF-8 bytes — more
than the cap.  The per-stream cap bounds the raw bytes kept, not the
UTF-8 byte length of the decoded text. -/
theorem claim_C1_counterexample :
    ¬ (utf8Len (_truncate (List.replicate 15 0xFF) 15) ≤ 15) := by decide

/-- Claim C1 (amended): for every raw byte stream and cap, the sanitized
output's length in characters is at most `max cap 15` (hence at most the
cap whenever the cap is at least the 15-byte truncation marker), and
whenever the raw stream's byte length exceeds the cap the sanitized output
ends with the exact truncation marker. -/
theorem claim_C1 (s : List Nat) (cap : Nat) :
    (_truncate s cap).length ≤ max cap markerBytes.length
    ∧ (cap < s.length → markerBytes <:+ _truncate s cap) := by
  unfold _truncate
  by_cases hle : s.length ≤ cap
  · rw [if_pos hle]
    refine ⟨le_trans (decodeReplace_length_le s) (le_trans hle (le_max_left _ _)), ?_⟩
    intro hgt
    omega
  · rw [if_neg hle]
    have h2 : Int.toNat (max 0 ((cap : Int) - 32)) = cap - 32 := by omega
    rw [h2]
    refine ⟨?_, fun _ => marker_suffix_decode _⟩
    have h1 := decodeReplace_length_le (s.take (cap - 32) ++ markerBytes)
    rw [List.length_append, List.length_take, markerBytes_length] at h1
    rw [markerBytes_length]
    omega

theorem claim_C1_witness :
    (_truncate (List.replicate 20 97) 16).length ≤ max 16 markerBytes.length
    ∧ markerBytes <:+ _truncate (List.replicate 20 97) 16 :=
  ⟨(claim_C1 (List.replicate 20 97) 16).1,
   (claim_C1 (List.replicate 20 97) 16).2 (by decide)⟩

/-- Claim C2, counterexample to the claim as stated: for a 17-byte stream and
a 16-byte cap the code keeps `max 0 (16 - 32) = 0` head bytes, while the
claim's reference definition keeps `16 - 15 = 1` byte; the two outputs
differ. -/
theorem claim_C2_counterexample :
    _truncate (List.replicate 17 97) 16 ≠ truncateSpecClaim (List.replicate 17 97) 16 := by
  decide

/-- Claim C2 (amended): the output sanitizer equals the two-branch reference
definition in which a within-cap stream is decoded fully with U+FFFD
replacement, and an over-cap stream keeps exactly its first
`max 0 (cap - 32)` bytes (a fixed 32-byte headroom, larger than the 15-byte
marker), appends the fixed truncation marker in its entirety, and decodes
with the same replacement policy. -/
theorem claim_C2 (s : List Nat) (cap : Nat) :
    _truncate s cap = truncateSpecAmended s cap := by
  unfold _truncate truncateSpecAmended
  have h2 : Int.toNat (max 0 ((cap : Int) - 32)) = cap - 32 := by omega
  rw [h2]

/-! ## Command assembly (`execute_python` argument handling)

Python text strings are modelled as `List Char`.  Caller-supplied runtime
arguments (`shlex.split(os.environ.get("PYTHON_WASM_RUNTIME_ARGS", ""))`)
enter the model as an already-split `List Str`.
-/

/-- Python `str` values are modelled as lists of characters. -/
abbrev Str := List Char

/-- The fixed guest mount prefix `"/python"`. -/
def guestPrefix : Str := ("/python").data

/-- `guest_prefix.lstrip("/")`, i.e. `"python"`. -/
def guestPrefixStripped : Str := ("python").data

/-- The literal runtime flag `"--dir"`. -/
def dirFlag : Str := ("--dir").data

/-- The literal prefix `"--dir="`. -/
def dirEqPrefix : Str := ("--dir=").data

/-- The literal runtime flag `"--env"`. -/
def envFlag : Str := ("--env").data

/-- The literal prefix `"--env="`. -/
def envEqPrefix : Str := ("--env=").data

/-- `target_suffix = f"::{guest_prefix.lstrip(chr(47))}"`, i.e. `"::python"`. -/
def targetSuffix : Str := ("::python").data

/-- The `=` character used between environment keys and values. -/
def eqChar : Char := Char.ofNat 61

/-- `host_mapping = f"{python_root}::{...}"`: host directory mapping string. -/
def hostMapping (pythonRoot : Str) : Str := pythonRoot ++ targetSuffix

/-- `_has_mapping` from `execute_python`: scan the argument list for a
`--dir` mapping whose target ends with the guest-prefix suffix
(`"::python"`), in either two-token `--dir VALUE` or one-token
`--dir=VALUE` form. -/
def _has_mapping : List Str → Bool
  | [] => false
  | v :: rest =>
    if v = dirFlag then
      (match rest with
       | nxt :: _ => targetSuffix.isSuffixOf nxt
       | [] => false) || _has_mapping rest
    else
      (dirEqPrefix.isPrefixOf v && targetSuffix.isSuffixOf (v.drop 6)) || _has_mapping rest

/-- The `if not _has_mapping(runtime_args): runtime_args.extend(...)` step. -/
def ensureDirMapping (pythonRoot : Str) (args : List Str) : List Str :=
  if _has_mapping args then args else args ++ [dirFlag, hostMapping pythonRoot]

/-- Whether an environment injection for `key` is already present, as scanned
by `_ensure_env_arg`: a two-token `--env KEY=...` or one-token
`--env=KEY=...` occurrence. -/
def envArgPresent (key : Str) : List Str → Bool
  | [] => false
  | v :: rest =>
    if v = envFlag then
      (match rest with
       | nxt :: _ => (key ++ [eqChar]).isPrefixOf nxt
       | [] => false) || envArgPresent key rest
    else
      (envEqPrefix.isPrefixOf v && (key ++ [eqChar]).isPrefixOf (v.drop 6))
        || envArgPresent key rest

/-- `_ensure_env_arg` from `execute_python`: append `--env KEY=VALUE` unless
an injection for that key is already present. -/
def _ensure_env_arg (args : List Str) (key value : Str) : List Str :=
  if envArgPresent key args then args else args ++ [envFlag, key ++ eqChar :: value]

/-- `":".join(paths)`. -/
def joinColon : List Str → Str
  | [] => []
  | [x] => x
  | x :: xs => x ++ Char.ofNat 58 :: joinColon xs

def kPYTHONUNBUFFERED : Str := ("PYTHONUNBUFFERED").data
def kPY_CODE_B64 : Str := ("PY_CODE_B64").data
def kPYTHON_WASM_PREFIX : Str := ("PYTHON_WASM_PREFIX").data
def kPYTHON_WASM_STDLIB_PATHS : Str := ("PYTHON_WASM_STDLIB_PATHS").data
def kPYTHONHOME : Str := ("PYTHONHOME").data
def kPYTHONPATH : Str := ("PYTHONPATH").data

/-- The `env_updates` dict of `execute_python`, in insertion order;
`PYTHONPATH` is only inserted when the colon-joined stdlib path string is
non-empty. -/
def env_updates (encodedCode : Str) (stdlibPaths : List Str) : List (Str × Str) :=
  let s := joinColon stdlibPaths
  [(kPYTHONUNBUFFERED, ("1").data),
   (kPY_CODE_B64, encodedCode),
   (kPYTHON_WASM_PREFIX, guestPrefix),
   (kPYTHON_WASM_STDLIB_PATHS, s),
   (kPYTHONHOME, guestPrefix)]
  ++ (if s = [] then [] else [(kPYTHONPATH, s)])

/-- The runtime-argument assembly of `execute_python`: ensure the directory
mapping, then ensure one `--env` injection per `env_updates` entry. -/
def assembleRuntimeArgs (pythonRoot : Str) (upd : List (Str × Str))
    (args : List Str) : List Str :=
  upd.foldl (fun a kv => _ensure_env_arg a kv.1 kv.2) (ensureDirMapping pythonRoot args)

/-! ### Lemmas about duplicate detection -/

theorem hm_append_left (xs ys : List Str) (h : _has_mapping xs = true) :
    _has_mapping (xs ++ ys) = true := by
  induction xs with
  | nil => simp [_has_mapping] at h
  | cons v rest ih =>
    rw [List.cons_append]
    by_cases hv : v = dirFlag
    · simp only [_has_mapping, if_pos hv, Bool.or_eq_true] at h ⊢
      rcases h with h | h
      · left
        rcases rest with _ | ⟨nxt, rest2⟩
        · simp at h
        · simpa using h
      · right; exact ih h
    · simp only [_has_mapping, if_neg hv, Bool.or_eq_true] at h ⊢
      rcases h with h | h
      · left; exact h
      · right; exact ih h

theorem hm_append_pair (xs : List Str) (pythonRoot : Str) :
    _has_mapping (xs ++ [dirFlag, hostMapping pythonRoot]) = true := by
  induction xs with
  | nil =>
    have hs : List.isSuffixOf targetSuffix (hostMapping pythonRoot) = true := by
      unfold hostMapping
      exact List.isSuffixOf_iff_suffix.mpr (List.suffix_append pythonRoot targetSuffix)
    simp [_has_mapping, hs]
  | cons v rest ih =>
    rw [List.cons_append]
    by_cases hv : v = dirFlag
    · simp only [_has_mapping, if_pos hv, Bool.or_eq_true]
      right; exact ih
    · simp only [_has_mapping, if_neg hv, Bool.or_eq_true]
      right; exact ih

theorem ep_append_left (key : Str) (xs ys : List Str) (h : envArgPresent key xs = true) :
    envArgPresent key (xs ++ ys) = true := by
  induction xs with
  | nil => simp [envArgPresent] at h
  | cons v rest ih =>
    rw [List.cons_append]
    by_cases hv : v = envFlag
    · simp only [envArgPresent, if_pos hv, Bool.or_eq_true] at h ⊢
      rcases h with h | h
      · left
        rcases rest with _ | ⟨nxt, rest2⟩
        · simp at h
        · simpa using h
      · right; exact ih h
    · simp only [envArgPresent, if_neg hv, Bool.or_eq_true] at h ⊢
      rcases h with h | h
      · left; exact h
      · right; exact ih h

theorem ep_append_pair (key value : Str) (xs : List Str) :
    envArgPresent key (xs ++ [envFlag, key ++ eqChar :: value]) = true := by
  induction xs with
  | nil =>
    have hp : List.isPrefixOf (key ++ [eqChar]) (key ++ eqChar :: value) = true := by
      rw [List.append_cons key eqChar value]
      exact List.isPrefixOf_iff_prefix.mpr (List.prefix_append (key ++ [eqChar]) value)
    simp [envArgPresent, hp]
  | cons v rest ih =>
    rw [List.cons_append]
    by_cases hv : v = envFlag
    · simp only [envArgPresent, if_pos hv, Bool.or_eq_true]
      right; exact ih
    · simp only [envArgPresent, if_neg hv, Bool.or_eq_true]
      right; exact ih

theorem ep_ensure_self (key value : Str) (xs : List Str) :
    envArgPresent key (_ensure_env_arg xs key value) = true := by
  unfold _ensure_env_arg
  cases hp : envArgPresent key xs
  · simp only [Bool.false_eq_true, if_false]
    exact ep_append_pair key value xs
  · simp [hp]

theorem fold_env_extends (upd : List (Str × Str)) (base : List Str) :
    base <+: upd.foldl (fun a kv => _ensure_env_arg a kv.1 kv.2) base := by
  induction upd generalizing base with
  | nil => exact List.prefix_refl _
  | cons kv rest ih =>
    simp only [List.foldl_cons]
    refine List.IsPrefix.trans ?_ (ih _)
    unfold _ensure_env_arg
    cases hp : envArgPresent kv.1 base
    · simp only [Bool.false_eq_true, if_false]
      exact List.prefix_append _ _
    · simp

theorem assemble_extends (pythonRoot : Str) (upd : List (Str × Str)) (args : List Str) :
    args <+: assembleRuntimeArgs pythonRoot upd args := by
  unfold assembleRuntimeArgs
  refine List.IsPrefix.trans ?_ (fold_env_extends upd _)
  unfold ensureDirMapping
  cases hm : _has_mapping args
  · simp only [Bool.false_eq_true, if_false]
    exact List.prefix_append _ _
  · simp

theorem ep_fold_mono (key : Str) (upd : List (Str × Str)) (base : List Str)
    (h : envArgPresent key base = true) :
    envArgPresent key (upd.foldl (fun a kv => _ensure_env_arg a kv.1 kv.2) base) = true := by
  obtain ⟨ys, hys⟩ := fold_env_extends upd base
  rw [← hys]
  exact ep_append_left key base ys h

theorem hm_fold_mono (upd : List (Str × Str)) (base : List Str)
    (h : _has_mapping base = true) :
    _has_mapping (upd.foldl (fun a kv => _ensure_env_arg a kv.1 kv.2) base) = true := by
  obtain ⟨ys, hys⟩ := fold_env_extends upd base
  rw [← hys]
  exact hm_append_left base ys h

theorem ep_fold_mem (key value : Str) (upd : List (Str × Str)) :
    ∀ (base : List Str), (key, value) ∈ upd →
      envArgPresent key (upd.foldl (fun a kv => _ensure_env_arg a kv.1 kv.2) base) = true := by
  induction upd with
  | nil => intro base h; simp at h
  | cons kv rest ih =>
    intro base h
    simp only [List.foldl_cons]
    rcases List.mem_cons.mp h with heq | hmem
    · rw [← heq]
      exact ep_fold_mono key rest _ (ep_ensure_self key value base)
    · exact ih _ hmem

theorem fold_env_id (upd : List (Str × Str)) (base : List Str)
    (h : ∀ kv ∈ upd, envArgPresent kv.1 base = true) :
    upd.foldl (fun a kv => _ensure_env_arg a kv.1 kv.2) base = base := by
  induction upd with
  | nil => rfl
  | cons kv rest ih =>
    simp only [List.foldl_cons]
    have h1 : envArgPresent kv.1 base = true := h kv (by simp)
    rw [show _ensure_env_arg base kv.1 kv.2 = base from by simp [_ensure_env_arg, h1]]
    exact ih (fun kv2 hm2 => h kv2 (by simp [hm2]))

theorem hm_assemble (pythonRoot : Str) (upd : List (Str × Str)) (args : List Str) :
    _has_mapping (assembleRuntimeArgs pythonRoot upd args) = true := by
  unfold assembleRuntimeArgs
  apply hm_fold_mono
  unfold ensureDirMapping
  cases hm : _has_mapping args
  · simp only [Bool.false_eq_true, if_false]
    exact hm_append_pair args pythonRoot
  · simp [hm]

theorem ensureDir_assembled (pythonRoot : Str) (upd : List (Str × Str)) (args : List Str) :
    ensureDirMapping pythonRoot (assembleRuntimeArgs pythonRoot upd args)
      = assembleRuntimeArgs pythonRoot upd args := by
  unfold ensureDirMapping
  rw [hm_assemble]
  simp

/-- Claim C5: directory-mapping and environment-injection assembly is
idempotent — assembling twice equals assembling once; caller arguments are
preserved as a prefix of the result; a caller argument list that already
contains a mapping to the guest prefix receives no directory mapping; and a
caller argument list that already injects a key receives no injection for
that key (existing caller entries win). -/
theorem claim_C5 (pythonRoot : Str) (upd : List (Str × Str)) (args : List Str) :
    assembleRuntimeArgs pythonRoot upd (assembleRuntimeArgs pythonRoot upd args)
        = assembleRuntimeArgs pythonRoot upd args
    ∧ args <+: assembleRuntimeArgs pythonRoot upd args
    ∧ (_has_mapping args = true → ensureDirMapping pythonRoot args = args)
    ∧ (∀ k v, envArgPresent k args = true → _ensure_env_arg args k v = args) := by
  refine ⟨?_, assemble_extends pythonRoot upd args, ?_, ?_⟩
  · conv_lhs => rw [assembleRuntimeArgs]
    rw [ensureDir_assembled]
    apply fold_env_id
    intro kv hkv
    rcases kv with ⟨k, v⟩
    exact ep_fold_mem k v upd _ hkv
  · intro h
    simp [ensureDirMapping, h]
  · intro k v h
    simp [_ensure_env_arg, h]

theorem claim_C5_witness :
    ensureDirMapping (("/r").data) [dirFlag, ("/evil::python").data]
        = [dirFlag, ("/evil::python").data]
    ∧ _ensure_env_arg [envFlag, ("PYTHONHOME=x").data] kPYTHONHOME (("1").data)
        = [envFlag, ("PYTHONHOME=x").data] :=
  ⟨(claim_C5 (("/r").data) [] [dirFlag, ("/evil::python").data]).2.2.1 (by decide),
   (claim_C5 (("/r").data) [] [envFlag, ("PYTHONHOME=x").data]).2.2.2
     kPYTHONHOME (("1").data) (by decide)⟩

/-- Claim C10: duplicate detection for the directory mapping compares only
the suffix of the mapping target — whenever the caller arguments already
contain any `--dir` mapping whose target ends with `"::python"` (even one
exposing a different host directory), `execute_python` adds no mapping of
its own, so the module's host root is mapped into the guest only if the
caller already mapped it. -/
theorem claim_C10 (pythonRoot : Str) (args : List Str)
    (h : _has_mapping args = true) :
    ensureDirMapping pythonRoot args = args
    ∧ (hostMapping pythonRoot ∈ ensureDirMapping pythonRoot args
        ↔ hostMapping pythonRoot ∈ args) := by
  constructor
  · simp [ensureDirMapping, h]
  · simp [ensureDirMapping, h]

theorem claim_C10_witness :
    ensureDirMapping (("/opt/py").data) [dirFlag, ("/evil::python").data]
      = [dirFlag, ("/evil::python").data] :=
  (claim_C10 (("/opt/py").data) [dirFlag, ("/evil::python").data] (by decide)).1

/-! ### Absence lemmas, for the key that is only conditionally injected -/

theorem keyEq_not_prefixOf (key : Str) :
    ∀ (w : Str), eqChar ∉ w → (key ++ [eqChar]).isPrefixOf w = false := by
  induction key with
  | nil =>
    intro w hw
    rcases w with _ | ⟨c, w2⟩
    · simp [List.isPrefixOf]
    · have hne : eqChar ≠ c := fun h => hw (h ▸ List.mem_cons_self c w2)
      simp [List.isPrefixOf, hne]
  | cons a k2 ih =>
    intro w hw
    rcases w with _ | ⟨c, w2⟩
    · simp [List.isPrefixOf]
    · rw [List.cons_append]
      simp only [List.isPrefixOf, Bool.and_eq_false_iff]
      right
      exact ih w2 (fun h => hw (List.mem_cons_of_mem c h))

theorem ep_pair_only_false (key a b : Str)
    (c2 : a = envFlag → (key ++ [eqChar]).isPrefixOf b = false)
    (c3 : a ≠ envFlag →
      (envEqPrefix.isPrefixOf a && (key ++ [eqChar]).isPrefixOf (a.drop 6)) = false)
    (c4 : b ≠ envFlag →
      (envEqPrefix.isPrefixOf b && (key ++ [eqChar]).isPrefixOf (b.drop 6)) = false) :
    envArgPresent key [a, b] = false := by
  have hb : envArgPresent key [b] = false := by
    by_cases hbe : b = envFlag
    · simp [envArgPresent, hbe]
    · simp only [envArgPresent, if_neg hbe, Bool.or_eq_false_iff]
      exact ⟨c4 hbe, trivial⟩
  by_cases ha : a = envFlag
  · simp only [envArgPresent, if_pos ha, Bool.or_eq_false_iff]
    exact ⟨c2 ha, hb⟩
  · simp only [envArgPresent, if_neg ha, Bool.or_eq_false_iff]
    exact ⟨c3 ha, hb⟩

theorem ep_append_pair_false (key a b : Str)
    (c1 : (key ++ [eqChar]).isPrefixOf a = false)
    (c2 : a = envFlag → (key ++ [eqChar]).isPrefixOf b = false)
    (c3 : a ≠ envFlag →
      (envEqPrefix.isPrefixOf a && (key ++ [eqChar]).isPrefixOf (a.drop 6)) = false)
    (c4 : b ≠ envFlag →
      (envEqPrefix.isPrefixOf b && (key ++ [eqChar]).isPrefixOf (b.drop 6)) = false) :
    ∀ (xs : List Str), envArgPresent key xs = false →
      envArgPresent key (xs ++ [a, b]) = false := by
  intro xs
  induction xs with
  | nil =>
    intro _
    simpa using ep_pair_only_false key a b c2 c3 c4
  | cons v rest ih =>
    intro h
    rw [List.cons_append]
    by_cases hv : v = envFlag
    · simp only [envArgPresent, if_pos hv, Bool.or_eq_false_iff] at h ⊢
      obtain ⟨h1, h2⟩ := h
      refine ⟨?_, ih h2⟩
      rcases rest with _ | ⟨nxt, rest2⟩
      · simpa using c1
      · simpa using h1
    · simp only [envArgPresent, if_neg hv, Bool.or_eq_false_iff] at h ⊢
      obtain ⟨h1, h2⟩ := h
      exact ⟨h1, ih h2⟩

theorem fold_env_absent (key : Str) (upd : List (Str × Str)) :
    ∀ (base : List Str), envArgPresent key base = false →
      (∀ kv ∈ upd, (key ++ [eqChar]).isPrefixOf (kv.1 ++ eqChar :: kv.2) = false
        ∧ envEqPrefix.isPrefixOf (kv.1 ++ eqChar :: kv.2) = false) →
      envArgPresent key (upd.foldl (fun a kv => _ensure_env_arg a kv.1 kv.2) base)
        = false := by
  induction upd with
  | nil => intro base h _; simpa using h
  | cons kv rest ih =>
    intro base h hk
    simp only [List.foldl_cons]
    apply ih
    · unfold _ensure_env_arg
      cases hp : envArgPresent kv.1 base
      · simp only [Bool.false_eq_true, if_false]
        refine ep_append_pair_false key envFlag (kv.1 ++ eqChar :: kv.2)
          (keyEq_not_prefixOf key envFlag (by decide)) (fun _ => (hk kv (by simp)).1)
          (fun hne => absurd rfl hne) (fun _ => ?_) base h
        rw [(hk kv (by simp)).2]
        simp
      · simpa using h
    · intro kv2 h2
      exact hk kv2 (List.mem_cons_of_mem kv h2)

theorem keyEq_isPrefixOf_pair_false :
    ∀ (key k v : Str), eqChar ∉ key → eqChar ∉ k → key ≠ k →
      (key ++ [eqChar]).isPrefixOf (k ++ eqChar :: v) = false := by
  intro key
  induction key with
  | nil =>
    intro k v _ hk hne
    rcases k with _ | ⟨c, k2⟩
    · exact absurd rfl hne
    · have hc : eqChar ≠ c := fun h => hk (h ▸ List.mem_cons_self c k2)
      simp [List.isPrefixOf, hc]
  | cons a key2 ih =>
    intro k v hkey hk hne
    rcases k with _ | ⟨c, k2⟩
    · have ha : a ≠ eqChar := fun h => hkey (h ▸ List.mem_cons_self a key2)
      simp [List.isPrefixOf, ha]
    · rw [List.cons_append, List.cons_append]
      simp only [List.isPrefixOf, Bool.and_eq_false_iff]
      by_cases hac : a = c
      · right
        exact ih k2 v (fun h => hkey (List.mem_cons_of_mem a h))
          (fun h => hk (List.mem_cons_of_mem c h))
          (fun h => hne (by rw [hac, h]))
      · left
        simp [hac]

theorem isPrefixOf_append_false (w k rest : Str) (hlen : w.length ≤ k.length)
    (h : w.isPrefixOf k = false) : w.isPrefixOf (k ++ rest) = false := by
  cases hx : w.isPrefixOf (k ++ rest)
  · rfl
  · have h2 : w <+: k ++ rest := List.isPrefixOf_iff_prefix.mp hx
    have h3 : w = (k ++ rest).take w.length := List.prefix_iff_eq_take.mp h2
    rw [List.take_append_of_le_length hlen] at h3
    have h4 : w <+: k := h3 ▸ List.take_prefix w.length k
    rw [List.isPrefixOf_iff_prefix.mpr h4] at h
    exact h

/-- Claim C8, counterexample to the claim as stated: with empty stdlib
discovery, empty encoded code and no caller arguments, the assembled
runtime arguments DO contain an environment injection for the stdlib
path-list variable (with empty value) — `env_updates` inserts
`PYTHON_WASM_STDLIB_PATHS` unconditionally; only `PYTHONPATH` is
conditional on a non-empty path list. -/
theorem claim_C8_counterexample :
    envArgPresent kPYTHON_WASM_STDLIB_PATHS
      (assembleRuntimeArgs (("/r").data) (env_updates [] []) []) = true := by decide

/-- Claim C8 (amended): when stdlib discovery returns the empty list, the
injection for the stdlib path-list variable is still added (with an empty
value), while the derived `PYTHONPATH` variable is the one only emitted for
a non-empty list — `env_updates` contains no `PYTHONPATH` entry, and no
`PYTHONPATH` injection appears in the assembled arguments unless the caller
already supplied one. -/
theorem claim_C8 (pythonRoot encodedCode : Str) (args : List Str)
    (hroot : envEqPrefix.isPrefixOf (hostMapping pythonRoot) = false)
    (hpp : envArgPresent kPYTHONPATH args = false) :
    (∀ v, (kPYTHONPATH, v) ∉ env_updates encodedCode [])
    ∧ envArgPresent kPYTHON_WASM_STDLIB_PATHS
        (assembleRuntimeArgs pythonRoot (env_updates encodedCode []) args) = true
    ∧ envArgPresent kPYTHONPATH
        (assembleRuntimeArgs pythonRoot (env_updates encodedCode []) args) = false := by
  have hupd : env_updates encodedCode [] =
      [(kPYTHONUNBUFFERED, ("1").data), (kPY_CODE_B64, encodedCode),
       (kPYTHON_WASM_PREFIX, guestPrefix), (kPYTHON_WASM_STDLIB_PATHS, []),
       (kPYTHONHOME, guestPrefix)] := by
    simp [env_updates, joinColon]
  refine ⟨?_, ?_, ?_⟩
  · intro v
    rw [hupd]
    intro hmem
    simp only [List.mem_cons, List.not_mem_nil, or_false] at hmem
    rcases hmem with h | h | h | h | h
    · exact absurd (show kPYTHONPATH = kPYTHONUNBUFFERED from congrArg Prod.fst h)
        (by decide)
    · exact absurd (show kPYTHONPATH = kPY_CODE_B64 from congrArg Prod.fst h) (by decide)
    · exact absurd (show kPYTHONPATH = kPYTHON_WASM_PREFIX from congrArg Prod.fst h)
        (by decide)
    · exact absurd (show kPYTHONPATH = kPYTHON_WASM_STDLIB_PATHS from congrArg Prod.fst h)
        (by decide)
    · exact absurd (show kPYTHONPATH = kPYTHONHOME from congrArg Prod.fst h) (by decide)
  · rw [hupd]
    unfold assembleRuntimeArgs
    exact ep_fold_mem kPYTHON_WASM_STDLIB_PATHS [] _ _ (by simp)
  · unfold assembleRuntimeArgs
    apply fold_env_absent
    · unfold ensureDirMapping
      cases hm : _has_mapping args
      · simp only [Bool.false_eq_true, if_false]
        refine ep_append_pair_false kPYTHONPATH dirFlag (hostMapping pythonRoot)
          (keyEq_not_prefixOf kPYTHONPATH dirFlag (by decide))
          (fun h => absurd h (by decide)) (fun _ => ?_) (fun _ => ?_) args hpp
        · rw [show envEqPrefix.isPrefixOf dirFlag = false from by decide]
          simp
        · rw [hroot]
          simp
      · simpa using hpp
    · intro kv hkv
      rw [hupd] at hkv
      simp only [List.mem_cons, List.not_mem_nil, or_false] at hkv
      rcases hkv with h | h | h | h | h
      · subst h
        exact ⟨keyEq_isPrefixOf_pair_false kPYTHONPATH kPYTHONUNBUFFERED (("1").data)
            (by decide) (by decide) (by decide),
          isPrefixOf_append_false envEqPrefix kPYTHONUNBUFFERED _ (by decide) (by decide)⟩
      · subst h
        exact ⟨keyEq_isPrefixOf_pair_false kPYTHONPATH kPY_CODE_B64 encodedCode
            (by decide) (by decide) (by decide),
          isPrefixOf_append_false envEqPrefix kPY_CODE_B64 _ (by decide) (by decide)⟩
      · subst h
        exact ⟨keyEq_isPrefixOf_pair_false kPYTHONPATH kPYTHON_WASM_PREFIX guestPrefix
            (by decide) (by decide) (by decide),
          isPrefixOf_append_false envEqPrefix kPYTHON_WASM_PREFIX _ (by decide) (by decide)⟩
      · subst h
        exact ⟨keyEq_isPrefixOf_pair_false kPYTHONPATH kPYTHON_WASM_STDLIB_PATHS []
            (by decide) (by decide) (by decide),
          isPrefixOf_append_false envEqPrefix kPYTHON_WASM_STDLIB_PATHS _
            (by decide) (by decide)⟩
      · subst h
        exact ⟨keyEq_isPrefixOf_pair_false kPYTHONPATH kPYTHONHOME guestPrefix
            (by decide) (by decide) (by decide),
          isPrefixOf_append_false envEqPrefix kPYTHONHOME _ (by decide) (by decide)⟩

theorem claim_C8_witness :
    envArgPresent kPYTHON_WASM_STDLIB_PATHS
        (assembleRuntimeArgs (("/r").data) (env_updates (("QQ").data) []) []) = true
    ∧ envArgPresent kPYTHONPATH
        (assembleRuntimeArgs (("/r").data) (env_updates (("QQ").data) []) []) = false :=
  ⟨(claim_C8 (("/r").data) (("QQ").data) [] (by decide) (by decide)).2.1,
   (claim_C8 (("/r").data) (("QQ").data) [] (by decide) (by decide)).2.2⟩

/-! ## Guest program arguments (`python_args` and the bootstrap payload) -/

/-- The single-quote character, written by code point to keep the embedded
Python source verbatim. -/
def sq : Char := Char.ofNat 39

def lbrace : Char := Char.ofNat 123

def rbrace : Char := Char.ofNat 125

/-- The lines of `_WASM_BOOTSTRAP_SCRIPT` from `executor.py`, verbatim. -/
def bootstrapLines : List Str :=
  [("import base64, os as _os, sys as _sys").data,
   ("_prefix = _os.environ.get(").data ++ [sq] ++ ("PYTHON_WASM_PREFIX").data
     ++ [sq] ++ (")").data,
   ("if _prefix:").data,
   ("    _sys.prefix = _sys.exec_prefix = _prefix").data,
   ("_paths = _os.environ.get(").data ++ [sq] ++ ("PYTHON_WASM_STDLIB_PATHS").data
     ++ [sq] ++ (")").data,
   ("if _paths:").data,
   ("    _entries = [p for p in _paths.split(").data ++ [sq] ++ (":").data ++ [sq]
     ++ (") if p]").data,
   ("    for _entry in reversed(_entries):").data,
   ("        if _entry not in _sys.path:").data,
   ("            _sys.path.insert(0, _entry)").data,
   ("_code = base64.b64decode(_os.environ[").data ++ [sq] ++ ("PY_CODE_B64").data
     ++ [sq] ++ ("]).decode(").data ++ [sq] ++ ("utf-8").data ++ [sq] ++ (")").data,
   ("_globals = ").data ++ [lbrace, sq] ++ ("__name__").data ++ [sq] ++ (": ").data
     ++ [sq] ++ ("__main__").data ++ [sq, rbrace],
   ("exec(compile(_code, ").data ++ [sq] ++ ("<user_code>").data ++ [sq] ++ (", ").data
     ++ [sq] ++ ("exec").data ++ [sq] ++ ("), _globals)").data]

/-- `"\n".join(lines)`. -/
def joinNL : List Str → Str
  | [] => []
  | [x] => x
  | x :: xs => x ++ Char.ofNat 10 :: joinNL xs

/-- The fixed bootstrap script passed as the guest program. -/
def _WASM_BOOTSTRAP_SCRIPT : Str := joinNL bootstrapLines

def oneStr : Str := ("1").data

/-- The three-way isolation policy of `execute_python`: if
`PYTHON_WASM_FORCE_ISOLATED` is set, isolation is on exactly when it is
`"1"`; otherwise, if `PYTHON_WASM_DISABLE_ISOLATED` is set, isolation is on
exactly when it is not `"1"`; otherwise isolation is off.  `none` models an
unset environment variable. -/
def useIsolated (forceIsolated disableIsolated : Option Str) : Bool :=
  match forceIsolated with
  | some v => decide (v = oneStr)
  | none =>
    match disableIsolated with
    | some v => decide (v ≠ oneStr)
    | none => false

def cFlag : Str := ("-c").data

def isoFlag : Str := ("-I").data

/-- The guest program argument list built by `execute_python`: an optional
leading `-I`, then `-c` and the fixed bootstrap script. -/
def pythonArgs (forceIsolated disableIsolated : Option Str) : List Str :=
  (if useIsolated forceIsolated disableIsolated then [isoFlag] else [])
    ++ [cFlag, _WASM_BOOTSTRAP_SCRIPT]

/-- Claim C9: for every configuration of the isolation toggles the guest
program argument list is exactly the two-element form `-c SCRIPT` or the
three-element form `-I -c SCRIPT` and nothing else; the flag follows the
three-way policy (forced on when the force toggle is `"1"`, else governed
by the disable toggle, default off), and with no toggle set the flag is
off. -/
theorem claim_C9 (forceIsolated disableIsolated : Option Str) :
    (pythonArgs forceIsolated disableIsolated = [cFlag, _WASM_BOOTSTRAP_SCRIPT]
      ∨ pythonArgs forceIsolated disableIsolated
          = [isoFlag, cFlag, _WASM_BOOTSTRAP_SCRIPT])
    ∧ pythonArgs none none = [cFlag, _WASM_BOOTSTRAP_SCRIPT]
    ∧ (∀ v, useIsolated (some v) disableIsolated = decide (v = oneStr))
    ∧ (∀ v, useIsolated none (some v) = decide (v ≠ oneStr))
    ∧ useIsolated none none = false := by
  refine ⟨?_, by simp [pythonArgs, useIsolated], fun v => rfl, fun v => rfl, rfl⟩
  unfold pythonArgs
  cases useIsolated forceIsolated disableIsolated
  · left; simp
  · right; simp

/-! ## Process supervision (`execute_python` wait/timeout handling) -/

/-- Mirror of the frozen `ExecutionResult` dataclass; `stdout`/`stderr` hold
decoded code points. -/
structure ExecutionResult where
  stdout : List Nat
  stderr : List Nat
  exit_code : Option Int
  timed_out : Bool
  duration_ms : Nat

/-- Abstract behaviour of the child process: either it exits within the
deadline with a real exit status and fully drained output, or the deadline
elapses first and only the output drained after the kill remains. -/
inductive ChildBehavior
  | completes (out err : List Nat) (status : Int)
  | exceedsDeadline (out err : List Nat)

/-- Termination signals sent by the supervisor on the timeout path:
`os.killpg(..., SIGKILL)` on the process group, then `proc.kill()`. -/
inductive KillAction
  | killProcessGroup
  | killProcess
deriving DecidableEq

/-- The kill actions performed: none on normal completion; group kill then
process kill after `subprocess.TimeoutExpired`. -/
def superviseKills : ChildBehavior → List KillAction
  | .completes _ _ _ => []
  | .exceedsDeadline _ _ => [.killProcessGroup, .killProcess]

/-- The `try/except TimeoutExpired` block of `execute_python` followed by
result construction: a completed child yields `timed_out := false` and its
real exit status; an expired deadline yields `timed_out := true` and
`exit_code := none`; both outputs pass through `_truncate`. -/
def supervise (b : ChildBehavior) (maxOutputBytes elapsedMs : Nat) : ExecutionResult :=
  match b with
  | .completes out err status =>
    { stdout := _truncate out maxOutputBytes
      stderr := _truncate err maxOutputBytes
      exit_code := some status
      timed_out := false
      duration_ms := elapsedMs }
  | .exceedsDeadline out err =>
    { stdout := _truncate out maxOutputBytes
      stderr := _truncate err maxOutputBytes
      exit_code := none
      timed_out := true
      duration_ms := elapsedMs }

/-- Claim C3: the result's exit code is absent exactly when `timed_out` is
true; on the deadline path the process group is force-killed, `timed_out` is
true and `exit_code` is `none`; on completion `timed_out` is false and
`exit_code` is the child's real status.  A timeout produces a normal
`ExecutionResult`, not an error — `supervise` is a total function into
`ExecutionResult`. -/
theorem claim_C3 (b : ChildBehavior) (cap ms : Nat) :
    ((supervise b cap ms).exit_code = none ↔ (supervise b cap ms).timed_out = true)
    ∧ (∀ out err, b = ChildBehavior.exceedsDeadline out err →
        (supervise b cap ms).timed_out = true
        ∧ (supervise b cap ms).exit_code = none
        ∧ superviseKills b = [KillAction.killProcessGroup, KillAction.killProcess])
    ∧ (∀ out err status, b = ChildBehavior.completes out err status →
        (supervise b cap ms).timed_out = false
        ∧ (supervise b cap ms).exit_code = some status
        ∧ superviseKills b = []) := by
  rcases b with ⟨out, err, status⟩ | ⟨out, err⟩
  · refine ⟨by simp [supervise], ?_, ?_⟩
    · intro o e h
      exact ChildBehavior.noConfusion h
    · intro o e st h
      injection h with h1 h2 h3
      subst h3
      exact ⟨rfl, rfl, rfl⟩
  · refine ⟨by simp [supervise], ?_, ?_⟩
    · intro o e _
      exact ⟨rfl, rfl, rfl⟩
    · intro o e st h
      exact ChildBehavior.noConfusion h

theorem claim_C3_witness :
    (supervise (ChildBehavior.exceedsDeadline [] []) 4 7).timed_out = true
    ∧ (supervise (ChildBehavior.exceedsDeadline [] []) 4 7).exit_code = none
    ∧ superviseKills (ChildBehavior.exceedsDeadline [] [])
        = [KillAction.killProcessGroup, KillAction.killProcess] :=
  (claim_C3 (ChildBehavior.exceedsDeadline [] []) 4 7).2.1 [] [] rfl

/-! ## Stdlib path discovery (`_discover_stdlib_paths`) -/

/-- Model of the `lib` directory that is a sibling of the WASM module:
whether `lib` exists and is a directory, its entry names in the sorted order
`sorted(lib_root.iterdir())` yields them, which entries are directories, and
which subdirectories of a given entry exist (`(version_dir / sub).is_dir()`).
`sorted(lib_root.glob("python*.zip"))` is the name-filtered entry list, in
the same sorted order. -/
structure LibLayout where
  libIsDir : Bool
  entries : List Str
  entryIsDir : Str → Bool
  hasSub : Str → Str → Bool

/-- `re.fullmatch(r"python" + digits + optional dot digits, name)`, with
ASCII digits. -/
def isVersionName (name : Str) : Bool :=
  ("python").data.isPrefixOf name &&
    (let rest := name.drop 6
     let ds := rest.takeWhile Char.isDigit
     let rest2 := rest.drop ds.length
     decide (ds ≠ []) &&
       (decide (rest2 = []) ||
         (match rest2 with
          | c :: r2 => decide (c = Char.ofNat 46) && decide (r2 ≠ []) && r2.all Char.isDigit
          | [] => false)))

/-- Whether a name matches the glob pattern `python*.zip`: `python` prefix,
`.zip` suffix, and long enough that the two parts do not overlap. -/
def isZipBundleName (name : Str) : Bool :=
  ("python").data.isPrefixOf name && (".zip").data.isSuffixOf name
    && decide (10 ≤ name.length)

/-- The `_add` helper of `_discover_stdlib_paths`: append a guest path only
if it has not been seen yet (the `seen` set always equals the members of the
accumulated list). -/
def addUnique (acc : List Str) (p : Str) : List Str :=
  if p ∈ acc then acc else acc ++ [p]

def libDynload : Str := ("lib-dynload").data

def sitePackages : Str := ("site-packages").data

def slashChar : Char := Char.ofNat 47

/-- `_discover_stdlib_paths` from `executor.py`: find the first
version-named subdirectory of `lib`; emit its guest path, then the guest
paths of its `lib-dynload` and `site-packages` subdirectories when present,
then one guest path per `python*.zip` bundle, deduplicating throughout. -/
def _discover_stdlib_paths (lib : LibLayout) (gp : Str) : List Str :=
  if lib.libIsDir = false then []
  else
    match lib.entries.find? (fun e => lib.entryIsDir e && isVersionName e) with
    | none => []
    | some vname =>
      let guestBase := gp ++ ("/lib/").data ++ vname
      let g1 := addUnique [] guestBase
      let g2 := if lib.hasSub vname libDynload
        then addUnique g1 (guestBase ++ slashChar :: libDynload) else g1
      let g3 := if lib.hasSub vname sitePackages
        then addUnique g2 (guestBase ++ slashChar :: sitePackages) else g2
      (lib.entries.filter isZipBundleName).foldl
        (fun acc z => addUnique acc (gp ++ ("/lib/").data ++ z)) g3

/-- The ordered candidate list before deduplication: versioned directory,
optional subdirectories, then archived bundles. -/
def discoverCandidates (lib : LibLayout) (gp : Str) (vname : Str) : List Str :=
  let guestBase := gp ++ ("/lib/").data ++ vname
  [guestBase]
    ++ (if lib.hasSub vname libDynload then [guestBase ++ slashChar :: libDynload] else [])
    ++ (if lib.hasSub vname sitePackages
        then [guestBase ++ slashChar :: sitePackages] else [])
    ++ (lib.entries.filter isZipBundleName).map (fun z => gp ++ ("/lib/").data ++ z)

/-- Keep the first occurrence of each element, silently dropping later
duplicates — the spec's wording of the deduplication policy. -/
def keepFirsts : List Str → List Str
  | [] => []
  | a :: t => a :: keepFirsts (t.filter (fun x => !decide (x = a)))
termination_by l => l.length
decreasing_by
  simp only [List.length_cons]
  exact Nat.lt_succ_of_le (List.length_filter_le _ _)

/-- Reference definition of stdlib discovery exactly as the spec words it:
empty when the `lib` directory or a version-named subdirectory is missing;
otherwise the ordered candidates with first occurrence winning. -/
def discoverSpecList (lib : LibLayout) (gp : Str) : List Str :=
  if lib.libIsDir = false then []
  else
    match lib.entries.find? (fun e => lib.entryIsDir e && isVersionName e) with
    | none => []
    | some vname => keepFirsts (discoverCandidates lib gp vname)

theorem foldl_addUnique (l : List Str) :
    ∀ acc, l.foldl addUnique acc
      = acc ++ keepFirsts (l.filter (fun x => !decide (x ∈ acc))) := by
  induction l with
  | nil => intro acc; simp [keepFirsts]
  | cons a t ih =>
    intro acc
    simp only [List.foldl_cons]
    by_cases ha : a ∈ acc
    · rw [show addUnique acc a = acc from by simp [addUnique, ha]]
      rw [ih acc]
      congr 2
      simp [List.filter_cons, ha]
    · rw [show addUnique acc a = acc ++ [a] from by simp [addUnique, ha]]
      rw [ih (acc ++ [a])]
      have hfa : (t.filter (fun x => !decide (x ∈ acc ++ [a])))
          = (t.filter (fun x => !decide (x ∈ acc))).filter (fun x => !decide (x = a)) := by
        rw [List.filter_filter]
        apply List.filter_congr
        intro x _
        simp [List.mem_append]
        rw [Bool.and_comm]
      have hstep : (a :: t).filter (fun x => !decide (x ∈ acc))
          = a :: t.filter (fun x => !decide (x ∈ acc)) := by
        simp [List.filter_cons, ha]
      rw [hstep]
      rw [show keepFirsts (a :: t.filter (fun x => !decide (x ∈ acc)))
          = a :: keepFirsts ((t.filter (fun x => !decide (x ∈ acc))).filter
              (fun x => !decide (x = a))) from by rw [keepFirsts]]
      rw [← hfa]
      simp

theorem addUnique_nodup (acc : List Str) (p : Str) (h : acc.Nodup) :
    (addUnique acc p).Nodup := by
  unfold addUnique
  split_ifs with hp
  · exact h
  · simp [List.nodup_append, h, hp]

theorem foldl_addUnique_nodup (l : List Str) :
    ∀ acc, acc.Nodup → (l.foldl addUnique acc).Nodup := by
  induction l with
  | nil => intro acc h; simpa
  | cons a t ih =>
    intro acc h
    simp only [List.foldl_cons]
    exact ih _ (addUnique_nodup acc a h)

theorem discover_eq_foldl (lib : LibLayout) (gp vname : Str)
    (hdir : lib.libIsDir = true)
    (h : lib.entries.find? (fun e => lib.entryIsDir e && isVersionName e) = some vname) :
    _discover_stdlib_paths lib gp
      = (discoverCandidates lib gp vname).foldl addUnique [] := by
  unfold _discover_stdlib_paths discoverCandidates
  rw [hdir, h]
  simp only [Bool.true_eq_false, if_false, List.foldl_append, List.foldl_cons,
    List.foldl_nil, List.foldl_map]
  by_cases h1 : lib.hasSub vname libDynload <;>
    by_cases h2 : lib.hasSub vname sitePackages <;>
      simp [h1, h2]

/-- Claim C6: stdlib discovery equals the spec's reference — in order, the
guest path of the version-named subdirectory, then its `lib-dynload` and
`site-packages` subdirectories when present, then one guest path per
`python*.zip` bundle, first occurrence winning — the result has no
duplicates, and a missing `lib` directory or missing version-named
subdirectory yields the empty list as a valid, non-error state. -/
theorem claim_C6 (lib : LibLayout) (gp : Str) :
    _discover_stdlib_paths lib gp = discoverSpecList lib gp
    ∧ (_discover_stdlib_paths lib gp).Nodup
    ∧ ((lib.libIsDir = false
        ∨ lib.entries.find? (fun e => lib.entryIsDir e && isVersionName e) = none) →
       _discover_stdlib_paths lib gp = []) := by
  by_cases hdir : lib.libIsDir = false
  · refine ⟨?_, ?_, fun _ => ?_⟩ <;>
      simp [_discover_stdlib_paths, discoverSpecList, hdir]
  · have hdir2 : lib.libIsDir = true := by
      revert hdir; cases lib.libIsDir <;> simp
    cases hfind : lib.entries.find? (fun e => lib.entryIsDir e && isVersionName e) with
    | none =>
      refine ⟨?_, ?_, fun _ => ?_⟩ <;>
        simp [_discover_stdlib_paths, discoverSpecList, hdir2, hfind]
    | some vname =>
      have heq := discover_eq_foldl lib gp vname hdir2 hfind
      refine ⟨?_, ?_, ?_⟩
      · rw [heq]
        unfold discoverSpecList
        rw [hdir2, hfind]
        simp only [Bool.true_eq_false, if_false]
        rw [foldl_addUnique]
        simp
      · rw [heq]
        exact foldl_addUnique_nodup _ _ List.nodup_nil
      · intro hcase
        rcases hcase with h | h
        · rw [hdir2] at h
          exact absurd h (by simp)
        · exact Option.noConfusion h

/-- Concrete library layout with one versioned directory, both
subdirectories, and one archived bundle. -/
def libLayoutExample : LibLayout where
  libIsDir := true
  entries := [("python3.11").data, ("python311.zip").data]
  entryIsDir := fun e => !(".zip").data.isSuffixOf e
  hasSub := fun _ _ => true

/-- Concrete layout with no `lib` directory at all. -/
def libLayoutEmpty : LibLayout where
  libIsDir := false
  entries := []
  entryIsDir := fun _ => false
  hasSub := fun _ _ => false

theorem claim_C6_witness :
    _discover_stdlib_paths libLayoutExample (("/python").data)
        = discoverSpecList libLayoutExample (("/python").data)
    ∧ _discover_stdlib_paths libLayoutEmpty (("/python").data) = [] :=
  ⟨(claim_C6 libLayoutExample (("/python").data)).1,
   (claim_C6 libLayoutEmpty (("/python").data)).2.2 (Or.inl rfl)⟩

/-! ## Runtime and module resolution (`_locate_runtime`, `_resolve_wasm_runtime`) -/

/-- Process-wide configuration read from the ambient environment; `none`
models an unset variable. -/
structure Config where
  runtimeOverride : Option Str
  wasmPath : Option Str
  forceIsolated : Option Str
  disableIsolated : Option Str

/-- Filesystem facts consulted during resolution, as an abstract model:
`isFile`, `isDir` and `pathExists` mirror the `os.path` predicates, `isExec`
mirrors `os.access(..., X_OK)`, `abspath` mirrors `os.path.abspath` and
`Path.resolve`, `which` mirrors `shutil.which`, `firstBytes` is what
`read(4)` on an existing non-directory returns, `parentDir` is
`Path(...).parent`, and `home` is `Path.home()`. -/
structure FSModel where
  isFile : Str → Bool
  isDir : Str → Bool
  pathExists : Str → Bool
  isExec : Str → Bool
  abspath : Str → Str
  which : Str → Option Str
  firstBytes : Str → List Nat
  parentDir : Str → Str
  home : Str

/-- `os.path.isabs` on POSIX: the path starts with a slash. -/
def isAbsPath (p : Str) : Bool :=
  match p with
  | [] => false
  | c :: _ => decide (c = slashChar)

/-- `os.sep in executable` on POSIX. -/
def containsSep (p : Str) : Bool := decide (slashChar ∈ p)

/-- `_locate_runtime` from `executor.py`: a falsy value locates nothing; an
absolute or separator-containing value must be a file and executable at its
absolute path; anything else is resolved through the executable search
path. -/
def _locate_runtime (fs : FSModel) (executable : Option Str) : Option Str :=
  match executable with
  | none => none
  | some e =>
    if e = [] then none
    else if isAbsPath e || containsSep e then
      (if fs.isFile (fs.abspath e) && fs.isExec (fs.abspath e)
       then some (fs.abspath e) else none)
    else fs.which e

def wasmtimeName : Str := ("wasmtime").data

/-- The fixed list of well-known installation locations, in order. -/
def wellKnownPaths (home : Str) : List Str :=
  [("/opt/homebrew/bin/wasmtime").data,
   ("/usr/local/bin/wasmtime").data,
   home ++ ("/.wasmtime/bin/wasmtime").data,
   home ++ ("/.cargo/bin/wasmtime").data]

/-- The runtime-lookup cascade of `_resolve_wasm_runtime`: configured
override, then the conventional default name, then the first well-known
location that is an executable file. -/
def resolveRuntimePath (cfg : Config) (fs : FSModel) : Option Str :=
  match _locate_runtime fs cfg.runtimeOverride with
  | some p => some p
  | none =>
    match _locate_runtime fs (some wasmtimeName) with
    | some p => some p
    | none =>
      (wellKnownPaths fs.home).findSome?
        (fun p => if fs.isFile p && fs.isExec p then some p else none)

/-- The distinct configuration errors raised before any spawn. -/
inductive ConfigError
  | runtimeNotFound
  | moduleUnset
  | moduleMissing
  | moduleIsDir
  | moduleBadMagic
deriving DecidableEq

/-- The first four bytes of a valid WebAssembly module. -/
def wasmMagic : List Nat := [0, 97, 115, 109]

/-- The module-validation part of `_resolve_wasm_runtime`: the configured
path must be set and non-empty, must exist, must not be a directory, and
its first four bytes must equal the magic; success yields the absolute
path. -/
def checkWasmModule (cfg : Config) (fs : FSModel) : Except ConfigError Str :=
  match cfg.wasmPath with
  | none => Except.error ConfigError.moduleUnset
  | some p =>
    if p = [] then Except.error ConfigError.moduleUnset
    else if fs.pathExists p = false then Except.error ConfigError.moduleMissing
    else if fs.isDir p = true then Except.error ConfigError.moduleIsDir
    else if ¬ (fs.firstBytes p = wasmMagic) then Except.error ConfigError.moduleBadMagic
    else Except.ok (fs.abspath p)

/-- `_resolve_wasm_runtime`: locate the runtime, then validate the module.
The extra runtime arguments (`shlex.split` of an environment variable) are
passed to the pipeline model separately as an already-split list. -/
def _resolve_wasm_runtime (cfg : Config) (fs : FSModel) :
    Except ConfigError (Str × Str) :=
  match resolveRuntimePath cfg fs with
  | none => Except.error ConfigError.runtimeNotFound
  | some rp =>
    match checkWasmModule cfg fs with
    | Except.error e => Except.error e
    | Except.ok m => Except.ok (rp, m)

/-- The four failure conditions of module validation as claim C4 words them
(an empty configured path is falsy under `if not wasm_module`, i.e. unset). -/
def moduleBadCondition (cfg : Config) (fs : FSModel) : Prop :=
  match cfg.wasmPath with
  | none => True
  | some p =>
    p = [] ∨ fs.pathExists p = false ∨ fs.isDir p = true
      ∨ ¬ (fs.firstBytes p = wasmMagic)

/-- The assembled invocation: full argv and the supervised result. -/
structure AssembledInvocation where
  argv : List Str
  result : ExecutionResult

/-- The `execute_python` pipeline over the models: resolve and validate,
then assemble directory mappings, environment injections and guest
arguments, then spawn and supervise.  A configuration error propagates and
the child behaviour is never consulted. -/
def executePythonModel (cfg : Config) (fs : FSModel) (lib : LibLayout)
    (callerArgs : List Str) (encodedCode : Str) (b : ChildBehavior)
    (cap ms : Nat) : Except ConfigError AssembledInvocation :=
  match _resolve_wasm_runtime cfg fs with
  | Except.error e => Except.error e
  | Except.ok (runtimePath, wasmModule) =>
    let pythonRoot := fs.parentDir wasmModule
    let stdlibPaths := _discover_stdlib_paths lib guestPrefix
    let runtimeArgs :=
      assembleRuntimeArgs pythonRoot (env_updates encodedCode stdlibPaths) callerArgs
    Except.ok
      { argv := runtimePath :: ("run").data :: runtimeArgs
          ++ [wasmModule] ++ pythonArgs cfg.forceIsolated cfg.disableIsolated
        result := supervise b cap ms }

/-- Claim C4: module validation raises a configuration error exactly when
the configured path is unset (or empty), does not exist, is a directory, or
its first four bytes differ from the magic sequence; when all checks pass it
returns the module's absolute path; and whenever validation fails the whole
pipeline fails with a configuration error whose value is independent of the
child behaviour — no child process is involved. -/
theorem claim_C4 (cfg : Config) (fs : FSModel) :
    ((∃ e, checkWasmModule cfg fs = Except.error e) ↔ moduleBadCondition cfg fs)
    ∧ (∀ p, cfg.wasmPath = some p → ¬ moduleBadCondition cfg fs →
        checkWasmModule cfg fs = Except.ok (fs.abspath p))
    ∧ (∀ e, checkWasmModule cfg fs = Except.error e →
        ∀ lib args code b1 b2 cap ms,
          executePythonModel cfg fs lib args code b1 cap ms
            = executePythonModel cfg fs lib args code b2 cap ms
          ∧ (∃ e2, executePythonModel cfg fs lib args code b1 cap ms
              = Except.error e2)) := by
  refine ⟨?_, ?_, ?_⟩
  · cases hp : cfg.wasmPath with
    | none => simp [checkWasmModule, moduleBadCondition, hp]
    | some p =>
      simp only [checkWasmModule, moduleBadCondition, hp]
      split_ifs with h1 h2 h3 h4 <;> simp [*]
  · intro p hp hbad
    simp only [moduleBadCondition, hp] at hbad
    push_neg at hbad
    obtain ⟨n1, n2, n3, n4⟩ := hbad
    simp [checkWasmModule, hp, n1, n2, n3, n4]
  · intro e he lib args code b1 b2 cap ms
    unfold executePythonModel _resolve_wasm_runtime
    cases hrt : resolveRuntimePath cfg fs
    · exact ⟨rfl, ConfigError.runtimeNotFound, rfl⟩
    · rw [he]
      exact ⟨rfl, e, rfl⟩

/-- A filesystem model on which every path is an existing executable
non-directory file with the correct magic. -/
def fsExample : FSModel where
  isFile := fun _ => true
  isDir := fun _ => false
  pathExists := fun _ => true
  isExec := fun _ => true
  abspath := fun p => p
  which := fun p => some (("/usr/bin/").data ++ p)
  firstBytes := fun _ => wasmMagic
  parentDir := fun _ => ("/opt/py").data
  home := ("/home/u").data

def cfgExample : Config where
  runtimeOverride := none
  wasmPath := some (("/opt/py/python.wasm").data)
  forceIsolated := none
  disableIsolated := none

/-- A filesystem model on which the module path is a directory. -/
def fsDirExample : FSModel where
  isFile := fun _ => false
  isDir := fun _ => true
  pathExists := fun _ => true
  isExec := fun _ => false
  abspath := fun p => p
  which := fun _ => none
  firstBytes := fun _ => []
  parentDir := fun _ => []
  home := []

theorem claim_C4_witness :
    checkWasmModule cfgExample fsExample
        = Except.ok (("/opt/py/python.wasm").data)
    ∧ (∃ e, checkWasmModule cfgExample fsDirExample = Except.error e) :=
  ⟨(claim_C4 cfgExample fsExample).2.1 (("/opt/py/python.wasm").data) rfl
     (by simp [moduleBadCondition, cfgExample, fsExample, wasmMagic]),
   (claim_C4 cfgExample fsDirExample).1.mpr
     (by simp [moduleBadCondition, cfgExample, fsDirExample])⟩

/-- The ordered candidate list of the runtime lookup. -/
def runtimeCandidates (cfg : Config) (fs : FSModel) : List (Option Str) :=
  [_locate_runtime fs cfg.runtimeOverride,
   _locate_runtime fs (some wasmtimeName)]
  ++ (wellKnownPaths fs.home).map
      (fun p => if fs.isFile p && fs.isExec p then some p else none)

/-- Claim C7: runtime resolution tries the configured override, then the
conventional default name, then the fixed well-known locations, first match
winning (it equals the first defined entry of the ordered candidate list);
an absolute or separator-containing override must be an executable file at
its absolute path, any other override is resolved through the executable
search path; and with no match the resolver raises the fatal
runtime-not-found configuration error. -/
theorem claim_C7 (cfg : Config) (fs : FSModel) :
    resolveRuntimePath cfg fs = (runtimeCandidates cfg fs).findSome? id
    ∧ (∀ e, e ≠ [] → (isAbsPath e || containsSep e) = true →
        _locate_runtime fs (some e)
          = (if fs.isFile (fs.abspath e) && fs.isExec (fs.abspath e)
             then some (fs.abspath e) else none))
    ∧ (∀ e, e ≠ [] → (isAbsPath e || containsSep e) = false →
        _locate_runtime fs (some e) = fs.which e)
    ∧ (resolveRuntimePath cfg fs = none →
        _resolve_wasm_runtime cfg fs = Except.error ConfigError.runtimeNotFound) := by
  refine ⟨?_, ?_, ?_, ?_⟩
  · unfold resolveRuntimePath runtimeCandidates
    rw [List.cons_append, List.cons_append, List.nil_append]
    rw [List.findSome?_cons, List.findSome?_cons]
    cases _locate_runtime fs cfg.runtimeOverride
    · cases _locate_runtime fs (some wasmtimeName)
      · simp [List.findSome?_map, Function.comp_def]
      · simp
    · simp
  · intro e he hsep
    simp [_locate_runtime, he, hsep]
  · intro e he hsep
    simp [_locate_runtime, he, hsep]
  · intro h
    unfold _resolve_wasm_runtime
    rw [h]

theorem claim_C7_witness :
    resolveRuntimePath cfgExample fsExample
        = (runtimeCandidates cfgExample fsExample).findSome? id
    ∧ _locate_runtime fsExample (some (("/a/b").data))
        = (if fsExample.isFile (fsExample.abspath (("/a/b").data))
              && fsExample.isExec (fsExample.abspath (("/a/b").data))
           then some (fsExample.abspath (("/a/b").data)) else none)
    ∧ _locate_runtime fsExample (some (("name").data))
        = fsExample.which (("name").data) :=
  ⟨(claim_C7 cfgExample fsExample).1,
   (claim_C7 cfgExample fsExample).2.1 (("/a/b").data) (by decide) (by decide),
   (claim_C7 cfgExample fsExample).2.2.1 (("name").data) (by decide) (by decide)⟩

end CodeInterpreter
